import Mathlib

set_option autoImplicit false

unseal Rat.mul Rat.add Rat.sub Rat.inv

/-! ### Small JS-flavoured helpers -/

/-- `charsStartWith l p`: `p` is an initial segment of `l`. -/
def charsStartWith : List Char → List Char → Bool
  | _, [] => true
  | [], _ :: _ => false
  | a :: l', b :: p' => a == b && charsStartWith l' p'

/-- `charsContain l p`: `p` occurs contiguously somewhere in `l`
(JavaScript `String.prototype.includes`). -/
def charsContain : List Char → List Char → Bool
  | [], p => p.isEmpty
  | a :: l', p => charsStartWith (a :: l') p || charsContain l' p

/-- JS `haystack.includes(needle)`. -/
def jsIncludes (haystack needle : String) : Bool :=
  charsContain haystack.toList needle.toList

/-- JS `String.prototype.toLowerCase` (per-character lowering; the
sources lower-case ASCII application names, domains and text). -/
def jsToLower (s : String) : String := String.mk (s.toList.map Char.toLower)

/-- JS `field.split('.')`: split at every dot. -/
def splitDotsAux : List Char → List Char → List String
  | [], cur => [String.mk cur.reverse]
  | c :: rest, cur =>
    if c = '.' then String.mk cur.reverse :: splitDotsAux rest []
    else splitDotsAux rest (c :: cur)

def jsSplitDots (s : String) : List String := splitDotsAux s.toList []

/-- JS `Array.prototype.findIndex` (a miss, −1, becomes `none`). -/
def jsFindIndex {α : Type} (p : α → Bool) : List α → Option ℕ
  | [] => none
  | x :: rest => if p x then some 0 else (jsFindIndex p rest).map (· + 1)

/-- Truthiness of an optional JS string (`undefined` and `''` are falsy). -/
def strTruthy : Option String → Bool
  | some s => s ≠ ""
  | none => false

/-- Insertion-ordered string-keyed object/Map: lookup. -/
def objGet {β : Type} (m : List (String × β)) (k : String) : Option β :=
  match m with
  | [] => none
  | (k', v) :: rest => if k' = k then some v else objGet rest k

/-- Insertion-ordered string-keyed object/Map: set (update in place or append). -/
def objSet {β : Type} (m : List (String × β)) (k : String) (v : β) : List (String × β) :=
  match m with
  | [] => [(k, v)]
  | (k', v') :: rest => if k' = k then (k, v) :: rest else (k', v') :: objSet rest k v

/-- JS `(obj[k] || 0) + d` followed by `obj[k] = …` on a numeric map. -/
def objIncr (m : List (String × ℚ)) (k : String) (d : ℚ) : List (String × ℚ) :=
  objSet m k ((objGet m k).getD 0 + d)

/-- JS object spread `{...a, ...b}` (later keys override earlier ones). -/
def objMerge {β : Type} (a b : List (String × β)) : List (String × β) :=
  b.foldl (fun m kv => objSet m kv.1 kv.2) a

/-- Sum of the values of a string-keyed numeric map. -/
def sumValues (m : List (String × ℚ)) : ℚ :=
  (m.map (fun kv => kv.2)).sum

/-! ### A tiny scanner for the fixed regex literals of the sources -/

inductive PatItem : Type
  | lit (s : List Char)
  | cls (f : Char → Bool) (lo : ℕ) (hi : Option ℕ)

/-- All suffixes of `cs` reachable by consuming between `lo` and `hi`
characters satisfying `f` (greedy and lazy alternatives alike). -/
def classDrops (f : Char → Bool) (lo : ℕ) (hi : Option ℕ) (cs : List Char) : List (List Char) :=
  match lo, cs with
  | 0, [] => [[]]
  | 0, c :: rest =>
    (c :: rest) ::
      (if hi = some 0 then []
       else if f c then classDrops f 0 (hi.map (· - 1)) rest else [])
  | _ + 1, [] => []
  | lo' + 1, c :: rest =>
    if f c then classDrops f lo' (hi.map (· - 1)) rest else []

/-- Remainders after matching the whole item list at the head of `cs`. -/
def consumePat : List PatItem → List Char → List (List Char)
  | [], cs => [cs]
  | .lit s :: rest, cs =>
    if charsStartWith cs s then consumePat rest (cs.drop s.length) else []
  | .cls f lo hi :: rest, cs =>
    (classDrops f lo hi cs).flatMap (consumePat rest)

/-- JS `\w`. -/
def isWordChar (c : Char) : Bool :=
  ('a' ≤ c && c ≤ 'z') || ('A' ≤ c && c ≤ 'Z') || ('0' ≤ c && c ≤ '9') || c == '_'

/-- JS `\s` (the core whitespace characters; exotic Unicode spaces are
not used by any record this development evaluates). -/
def isWsChar (c : Char) : Bool :=
  c == ' ' || c == '\t' || c == '\n' || c == '\r' || c == '\x0b' || c == '\x0c'

/-- JS `.` (anything but a line terminator). -/
def isDotChar (c : Char) : Bool :=
  !(c == '\n' || c == '\r')

/-- A compiled fixed pattern: items plus `\b` boundaries / `^` anchors. -/
structure JsPattern : Type where
  leftB : Bool
  items : List PatItem
  rightB : Bool
  anchor : Bool
  anchorM : Bool

/-- Plain unanchored pattern. -/
def pat (items : List PatItem) : JsPattern :=
  ⟨false, items, false, false, false⟩

/-- Pattern wrapped in `\b … \b`. -/
def patB (items : List PatItem) : JsPattern :=
  ⟨true, items, true, false, false⟩

/-- `^`-anchored pattern (no `/m`). -/
def patA (items : List PatItem) : JsPattern :=
  ⟨false, items, false, true, false⟩

/-- `^`-anchored pattern with the `/m` flag. -/
def patAM (items : List PatItem) : JsPattern :=
  ⟨false, items, false, false, true⟩

/-- Does the pattern match starting exactly here (right boundary honoured)? -/
def patAt (p : JsPattern) (cs : List Char) : Bool :=
  (consumePat p.items cs).any fun rest =>
    !p.rightB ||
      (match rest with
       | [] => true
       | c :: _ => !isWordChar c)

/-- Scan every start position; `prev` is the character before the
current position (for `\b`, `^` and `^/m`). -/
def patSearch (p : JsPattern) (prev : Option Char) (cs : List Char) : Bool :=
  (decide (if p.anchor then prev = none
           else if p.anchorM then prev = none ∨ prev = some '\n'
           else p.leftB = false ∨ prev = none ∨ ∃ c, prev = some c ∧ isWordChar c = false)
    && patAt p cs)
  || (match cs with
      | [] => false
      | c :: rest => patSearch p (some c) rest)

/-- `regex.test(text)` for a fixed pattern. -/
def patTest (p : JsPattern) (text : String) : Bool :=
  patSearch p none text.toList

/-! ### Data model (`types.ts`) -/

/-- A JSON-ish runtime value, for the untyped `data` payload and for rule
condition values (`value: any`). -/
inductive JsonVal : Type
  | str (s : String)
  | num (q : ℚ)
  | bool (b : Bool)
  | obj (fields : List (String × JsonVal))

/-- `raw.type`: `'keyboard' | 'mouse' | 'window' | 'application'`. -/
inductive RawType : Type
  | keyboard | mouse | window | application
deriving DecidableEq

/-- `ApplicationContext` of `types.ts` (`process_name` and `url` optional). -/
structure ApplicationContext : Type where
  application : String
  window_title : String
  process_name : Option String
  url : Option String

/-- `RawActivity` of `types.ts`.  `data: any` is modelled as a JSON
object (every record the repository constructs carries an object there);
`timestamp` is epoch milliseconds as a JS number. -/
structure RawActivity : Type where
  id : String
  timestamp : ℚ
  device_id : String
  session_id : String
  type : RawType
  data : List (String × JsonVal)
  processed_text : Option String
  context : Option ApplicationContext

/-- A compiled configuration-supplied regex: `test` for condition
matching and `firstMatch` for `String.prototype.match` (whole match and
optional first capture group). -/
structure JsRegex : Type where
  test : String → Bool
  firstMatch : String → Option (String × Option String)

/-- The parts of a parsed `URL` object the sources read: `hostname`
(ActivityCategorizer, QualityAnalyzer) and `pathname`
(ContentExtractor's browser-navigation branch). -/
structure JsUrl : Type where
  hostname : String
  pathname : String

/-- Ambient JS platform facilities: `new RegExp(pattern)` on
configuration-supplied patterns (`none` = the constructor throws a
`SyntaxError`), `new URL(url)` (`none` = the constructor throws a
`TypeError`), `Date.now()`, and the value of the content block built by
`ContentExtractor.extract` — no verified property inspects that value,
but `extract` is *not* total: its one input-dependent throw is modelled
separately by `ContentExtractor.extract` below via `extractThrows`. -/
structure JsEnv : Type where
  compileRegex : String → Option JsRegex
  parseUrl : String → Option JsUrl
  now : ℚ
  extractedContent : RawActivity → List (String × String)

/-! ### QualityAnalyzer (`analyzers/QualityAnalyzer.ts`) -/

/-- `QualityThresholds` of `QualityAnalyzer.ts`. -/
structure QualityThresholds : Type where
  min_confidence : ℚ
  min_text_length : ℚ
  max_idle_duration : ℚ

/-- One step of the `score`/`fields` accumulation pattern used by
`calculateCompletenessScore` and `calculateContextScore`: a present
field adds its weight to both the score and the field total. -/
def scoreFieldsStep (acc : ℚ × ℚ) (bw : Bool × ℚ) : ℚ × ℚ :=
  if bw.1 then (acc.1 + bw.2, acc.2 + bw.2) else acc

/-- The eight truthiness checks of `calculateCompletenessScore`, in
source order with their weights (`activity.type` is one of four
non-empty literal strings, hence always truthy). -/
def completenessItems (a : RawActivity) : List (Bool × ℚ) :=
  [(a.id != "", 1), (a.timestamp != 0, 1), (a.device_id != "", 1),
   (a.session_id != "", 1), (true, 1),
   (!a.data.isEmpty, 1/2), (strTruthy a.processed_text, 1/2),
   (a.context.isSome, 1/2)]

/-- `calculateCompletenessScore` — note that `score` and `fields` are
incremented together, only for fields that are present. -/
def calculateCompletenessScore (a : RawActivity) : ℚ :=
  let sf := (completenessItems a).foldl scoreFieldsStep (0, 0)
  if sf.2 > 0 then sf.1 / sf.2 else 0

/-- `text.split(/\s+/)`: split on maximal whitespace runs (no filtering
of empty leading/trailing pieces, exactly as in JS).  A token is emitted
when a run starts; `afterWs` records being inside a run. -/
def splitWsAux : List Char → List Char → Bool → List String
  | [], cur, _ => [String.mk cur.reverse]
  | c :: rest, cur, afterWs =>
    if isWsChar c then
      if afterWs then splitWsAux rest cur afterWs
      else String.mk cur.reverse :: splitWsAux rest [] true
    else splitWsAux rest (c :: cur) false

/-- JS `text.split(/\s+/)`. -/
def jsSplitWs (t : String) : List String := splitWsAux t.toList [] false

/-- `/(.)\1{4,}/`: some non-line-terminator character repeated five or
more times in a row. -/
def hasFiveRepeat : List Char → Bool
  | [] => false
  | c :: rest => (isDotChar c && charsStartWith rest [c, c, c, c]) || hasFiveRepeat rest

/-- `hasRepetitivePattern` of `QualityAnalyzer.ts`. -/
def hasRepetitivePattern (text : String) : Bool :=
  hasFiveRepeat text.toList ||
    (let words := jsSplitWs text
     words.length > 5 && decide ((words.dedup.length : ℚ) < (words.length : ℚ) * (1/2)))

def isConsonant (c : Char) : Bool :=
  "bcdfghjklmnpqrstvwxyz".toList.contains c.toLower

def isVowel (c : Char) : Bool :=
  "aeiou".toList.contains c.toLower

/-- `looksLikeGibberish`: `/[bcdfghjklmnpqrstvwxyz]{5,}/i` or vowel
ratio below 10% (the callers guarantee non-empty text; on empty text the
JS NaN comparison is false while `ℚ` division yields `0 < 1/10`, a case
that cannot be reached). -/
def looksLikeGibberish (text : String) : Bool :=
  patTest (pat [.cls isConsonant 5 none]) text ||
    decide (((text.toList.filter isVowel).length : ℚ) / (text.length : ℚ) < 1/10)

/-- `hasProperStructure`: `/[.!?]/`, `/^[A-Z]/`, `/\s/`. -/
def hasProperStructure (text : String) : Bool :=
  let hasPunctuation := text.toList.any fun c => c == '.' || c == '!' || c == '?'
  let hasCapitalization :=
    match text.toList with
    | c :: _ => 'A' ≤ c && c ≤ 'Z'
    | [] => false
  let hasSpaces := text.toList.any isWsChar
  hasPunctuation || (hasCapitalization && hasSpaces)

/-- `calculateTextQualityScore` (only invoked on truthy text). -/
def calculateTextQualityScore (th : QualityThresholds) (text : String) : ℚ :=
  if text = "" then 0
  else
    let score : ℚ := 1
    let score := if (text.length : ℚ) < th.min_text_length then score * (1/2) else score
    let wordCount := ((jsSplitWs text).filter (fun w => w ≠ "")).length
    let score := if wordCount < 3 then score * (7/10) else score
    let score := if hasRepetitivePattern text then score * (3/5) else score
    let score := if looksLikeGibberish text then score * (3/10) else score
    let score := if hasProperStructure text then score * (6/5) else score
    min 1 score

/-- `isValidUrl`: `new URL(url)` succeeds. -/
def isValidUrl (env : JsEnv) (url : String) : Bool :=
  (env.parseUrl url).isSome

/-- The four truthiness checks of `calculateContextScore`. -/
def contextItems (ctx : ApplicationContext) : List (Bool × ℚ) :=
  [(ctx.application != "", 1), (ctx.window_title != "", 1),
   (strTruthy ctx.process_name, 1/2), (strTruthy ctx.url, 1/2)]

/-- `calculateContextScore` (a present-but-unparseable URL costs 0.5). -/
def calculateContextScore (env : JsEnv) (ctx : ApplicationContext) : ℚ :=
  let sf := (contextItems ctx).foldl scoreFieldsStep (0, 0)
  let score :=
    if strTruthy ctx.url && !isValidUrl env ((ctx.url).getD "") then sf.1 - 1/2 else sf.1
  if sf.2 > 0 then max 0 (score / sf.2) else 0

/-- `calculateTemporalScore` (`!activity.timestamp` is the 0 check). -/
def calculateTemporalScore (env : JsEnv) (a : RawActivity) : ℚ :=
  if a.timestamp = 0 then 0
  else if a.timestamp > env.now then 3/10
  else if env.now - a.timestamp > 24 * 60 * 60 * 1000 then 7/10
  else 1

def isAsciiLetter (c : Char) : Bool :=
  ('a' ≤ c && c ≤ 'z') || ('A' ≤ c && c ≤ 'Z')

def isEmailLocalChar (c : Char) : Bool :=
  isAsciiLetter c || c.isDigit || c == '.' || c == '_' || c == '%' || c == '+' || c == '-'

def isEmailDomainChar (c : Char) : Bool :=
  isAsciiLetter c || c.isDigit || c == '.' || c == '-'

def isCardSep (c : Char) : Bool :=
  c == '-' || isWsChar c

/-- The five `initializeAnomalyPatterns` regexes, as predicates on the
text, in source order:
`/password|passwd|pwd/i`, the SSN pattern `/\b\d{3}-?\d{2}-?\d{4}\b/`,
the email pattern, the credit-card pattern `/\b(?:\d{4}[-\s]?){3}\d{4}\b/`
and `/-----BEGIN.*KEY-----/`. -/
def anomalyPatternHits (text : String) : List Bool :=
  [jsIncludes (jsToLower text) "password" || jsIncludes (jsToLower text) "passwd" ||
     jsIncludes (jsToLower text) "pwd",
   patTest (patB [.cls Char.isDigit 3 (some 3), .cls (fun c => c == '-') 0 (some 1),
                  .cls Char.isDigit 2 (some 2), .cls (fun c => c == '-') 0 (some 1),
                  .cls Char.isDigit 4 (some 4)]) text,
   patTest (patB [.cls isEmailLocalChar 1 none, .lit "@".toList,
                  .cls isEmailDomainChar 1 none, .lit ".".toList,
                  .cls isAsciiLetter 2 none]) text,
   patTest (patB [.cls Char.isDigit 4 (some 4), .cls isCardSep 0 (some 1),
                  .cls Char.isDigit 4 (some 4), .cls isCardSep 0 (some 1),
                  .cls Char.isDigit 4 (some 4), .cls isCardSep 0 (some 1),
                  .cls Char.isDigit 4 (some 4)]) text,
   patTest (pat [.lit "-----BEGIN".toList, .cls isDotChar 0 none,
                 .lit "KEY-----".toList]) text]

/-- The `anomalyCount` accumulated by `detectAnomalies`: pattern hits on
truthy text, plus the keystroke-rate and mouse-with-text structural
anomalies.  An object (`activity.data`) is always truthy in JS. -/
def anomalyCount (a : RawActivity) : ℕ :=
  let fromText : ℕ :=
    match a.processed_text with
    | some t => if t ≠ "" then ((anomalyPatternHits t).filter (fun b => b)).length else 0
    | none => 0
  let fromKeys : ℕ :=
    if a.type = RawType.keyboard then
      match objGet a.data "keys_per_second" with
      | some (JsonVal.num q) => if q > 20 then 1 else 0
      | _ => 0
    else 0
  let fromMouse : ℕ :=
    if a.type = RawType.mouse && strTruthy a.processed_text then 1 else 0
  fromText + fromKeys + fromMouse

/-- `detectAnomalies`: 1.0 with zero hits, else `max(0.3, 1 − 0.2·count)`. -/
def detectAnomalies (a : RawActivity) : ℚ :=
  if anomalyCount a = 0 then 1 else max (3/10) (1 - (anomalyCount a : ℚ) * (1/5))

/-- The `scores` array of `analyze`: sub-scores are pushed
conditionally, so an absent `processed_text`/`context` *compacts* the
array rather than leaving a hole at the sub-score's index. -/
def analyzeScores (env : JsEnv) (th : QualityThresholds) (a : RawActivity) : List ℚ :=
  [calculateCompletenessScore a]
    ++ (match a.processed_text with
        | some t => if t ≠ "" then [calculateTextQualityScore th t] else []
        | none => [])
    ++ (match a.context with
        | some ctx => [calculateContextScore env ctx]
        | none => [])
    ++ [calculateTemporalScore env a, detectAnomalies a]

/-- The weight table of `analyze` (applied positionally to the compacted
`scores` array; the `|| 0.2` fallback is dead since `scores` never holds
more than five entries and no weight is falsy). -/
def analyzeWeights : List ℚ := [1/5, 3/10, 1/5, 1/5, 1/10]

/-- `QualityAnalyzer.analyze` as a pure score (the rolling
`qualityScores` history only feeds diagnostics). -/
def analyze (env : JsEnv) (th : QualityThresholds) (a : RawActivity) : ℚ :=
  let sw := (analyzeScores env th a).zip analyzeWeights
  let totalScore := sw.foldl (fun acc p => acc + p.1 * p.2) 0
  let totalWeight := sw.foldl (fun acc p => acc + p.2) 0
  if totalWeight > 0 then totalScore / totalWeight else 0

/-! ### RuleEngine (`engines/RuleEngine.ts`) -/

/-- JS `String(x)` as used by `new RegExp(condition.value)`. -/
def jsToString : JsonVal → String
  | .str s => s
  | .num q => toString q
  | .bool b => if b then "true" else "false"
  | .obj _ => "[object Object]"

def rawTypeStr : RawType → String
  | .keyboard => "keyboard"
  | .mouse => "mouse"
  | .window => "window"
  | .application => "application"

def contextToJson (c : ApplicationContext) : JsonVal :=
  JsonVal.obj
    ([("application", JsonVal.str c.application),
      ("window_title", JsonVal.str c.window_title)]
      ++ (match c.process_name with
          | some p => [("process_name", JsonVal.str p)]
          | none => [])
      ++ (match c.url with
          | some u => [("url", JsonVal.str u)]
          | none => []))

/-- The raw record seen as the JS object that `getFieldValue` traverses. -/
def rawToJson (a : RawActivity) : JsonVal :=
  JsonVal.obj
    ([("id", JsonVal.str a.id), ("timestamp", JsonVal.num a.timestamp),
      ("device_id", JsonVal.str a.device_id),
      ("session_id", JsonVal.str a.session_id),
      ("type", JsonVal.str (rawTypeStr a.type)),
      ("data", JsonVal.obj a.data)]
      ++ (match a.processed_text with
          | some t => [("processed_text", JsonVal.str t)]
          | none => [])
      ++ (match a.context with
          | some c => [("context", contextToJson c)]
          | none => []))

/-- One step of `value?.[part]` (property access on primitives, such as
`.length` on a string, is not used by any rule of this repository and is
not modelled). -/
def jsonField : Option JsonVal → String → Option JsonVal
  | some (JsonVal.obj fs), part => objGet fs part
  | _, _ => none

/-- `getFieldValue`: dot-path traversal; a missing segment at any depth
yields `undefined` (`none`). -/
def getFieldValue (a : RawActivity) (field : String) : Option JsonVal :=
  (jsSplitDots field).foldl jsonField (some (rawToJson a))

/-- JS `===` on a field value and a condition value.  Mixed primitive
types are never strictly equal; object comparison in JS is reference
equality and a configuration-supplied rule value is a distinct
reference, hence `false`. -/
def jsStrictEq : JsonVal → JsonVal → Bool
  | JsonVal.str a, JsonVal.str b => a == b
  | JsonVal.num a, JsonVal.num b => a == b
  | JsonVal.bool a, JsonVal.bool b => a == b
  | _, _ => false

def jsStrictEqOpt : Option JsonVal → JsonVal → Bool
  | some v, w => jsStrictEq v w
  | none, _ => false

structure RuleCondition : Type where
  field : String
  operator : String
  value : JsonVal

inductive RuleAction : Type
  | set_type (value : String)
  | set_category (value : String)
  | add_tag (value : String)
  | extract_content (field pattern target : String)
  | calculate_duration
  | unknownAction (t : String)

structure ParsingRule : Type where
  id : String
  name : String
  description : String
  priority : ℚ
  enabled : Bool
  conditions : List RuleCondition
  actions : List RuleAction

/-- `evaluateCondition`.  `contains` throws a `TypeError` when the field
value is a string but the condition value has no `toLowerCase`;
`matches` throws a `SyntaxError` when the pattern does not compile (the
short-circuit `typeof value === 'string' && …` means neither can throw
on a non-string field value).  A non-numeric comparison value for the
numeric operators coerces to `NaN` and compares `false`. -/
def evaluateCondition (env : JsEnv) (c : RuleCondition) (a : RawActivity) :
    Except String Bool :=
  let value := getFieldValue a c.field
  match c.operator with
  | "equals" => Except.ok (jsStrictEqOpt value c.value)
  | "contains" =>
    match value with
    | some (JsonVal.str s) =>
      match c.value with
      | JsonVal.str v => Except.ok (jsIncludes (jsToLower s) (jsToLower v))
      | _ => Except.error "TypeError"
    | _ => Except.ok false
  | "matches" =>
    match value with
    | some (JsonVal.str s) =>
      match env.compileRegex (jsToString c.value) with
      | some regex => Except.ok (regex.test s)
      | none => Except.error "SyntaxError"
    | _ => Except.ok false
  | "greater_than" =>
    match value with
    | some (JsonVal.num q) =>
      match c.value with
      | JsonVal.num v => Except.ok (decide (q > v))
      | _ => Except.ok false
    | _ => Except.ok false
  | "less_than" =>
    match value with
    | some (JsonVal.num q) =>
      match c.value with
      | JsonVal.num v => Except.ok (decide (q < v))
      | _ => Except.ok false
    | _ => Except.ok false
  | _ => Except.ok false

/-- `conditions.every(…)` — AND semantics with short-circuit; note that
`every` on an empty list is `true`. -/
def evaluateConditions (env : JsEnv) :
    List RuleCondition → RawActivity → Except String Bool
  | [], _ => Except.ok true
  | c :: cs, a =>
    match evaluateCondition env c a with
    | Except.error e => Except.error e
    | Except.ok false => Except.ok false
    | Except.ok true => evaluateConditions env cs a

structure RuleResult : Type where
  type : Option String
  category : Option String
  tags : List String
  content : List (String × String)
  applied_rules : List String

def emptyRuleResult : RuleResult :=
  { type := none, category := none, tags := [], content := [], applied_rules := [] }

/-- `extractContent`: on a string field value and a truthy pattern,
compile (a bad pattern throws), match, and on success store
`match[1] || match[0]` under the target key. -/
def extractContent (env : JsEnv) (field pattern target : String) (a : RawActivity)
    (r : RuleResult) : Except String RuleResult :=
  match getFieldValue a field with
  | some (JsonVal.str s) =>
    if pattern ≠ "" then
      match env.compileRegex pattern with
      | none => Except.error "SyntaxError"
      | some regex =>
        match regex.firstMatch s with
        | some (m0, m1) =>
          let captured :=
            match m1 with
            | some g => if g = "" then m0 else g
            | none => m0
          Except.ok { r with content := objSet r.content target captured }
        | none => Except.ok r
    else Except.ok r
  | _ => Except.ok r

def applyAction (env : JsEnv) (act : RuleAction) (a : RawActivity) (r : RuleResult) :
    Except String RuleResult :=
  match act with
  | RuleAction.set_type v => Except.ok { r with type := some v }
  | RuleAction.set_category v => Except.ok { r with category := some v }
  | RuleAction.add_tag v => Except.ok { r with tags := r.tags ++ [v] }
  | RuleAction.extract_content f p t => extractContent env f p t a r
  | RuleAction.calculate_duration => Except.ok r
  | RuleAction.unknownAction _ => Except.ok r

def applyActions (env : JsEnv) :
    List RuleAction → RawActivity → RuleResult → Except String RuleResult
  | [], _, r => Except.ok r
  | act :: rest, a, r =>
    match applyAction env act a r with
    | Except.error e => Except.error e
    | Except.ok r' => applyActions env rest a r'

/-- `isExclusiveRule`: the rule sets a type or a category. -/
def isExclusiveRule (rule : ParsingRule) : Bool :=
  rule.actions.any fun act =>
    match act with
    | RuleAction.set_type _ => true
    | RuleAction.set_category _ => true
    | _ => false

def recordHit (hits : List (String × ℕ)) (ruleId : String) : List (String × ℕ) :=
  objSet hits ruleId ((objGet hits ruleId).getD 0 + 1)

/-- The rule loop of `RuleEngine.apply`, over the (already
priority-sorted) `this.rules`.  Hits recorded before an exception are
kept, matching the in-place `Map` mutation. -/
def applyRules (env : JsEnv) :
    List ParsingRule → RawActivity → RuleResult → List (String × ℕ) →
      Except String RuleResult × List (String × ℕ)
  | [], _, r, hits => (Except.ok r, hits)
  | rule :: rest, a, r, hits =>
    if !rule.enabled then applyRules env rest a r hits
    else
      match evaluateConditions env rule.conditions a with
      | Except.error e => (Except.error e, hits)
      | Except.ok false => applyRules env rest a r hits
      | Except.ok true =>
        match applyActions env rule.actions a r with
        | Except.error e => (Except.error e, hits)
        | Except.ok r' =>
          let r'' := { r' with applied_rules := r'.applied_rules ++ [rule.id] }
          let hits' := recordHit hits rule.id
          if isExclusiveRule rule then (Except.ok r'', hits')
          else applyRules env rest a r'' hits'

def insertByPriority (r : ParsingRule) : List ParsingRule → List ParsingRule
  | [] => [r]
  | x :: xs => if r.priority > x.priority then r :: x :: xs else x :: insertByPriority r xs

/-- `sortRulesByPriority`: stable sort, priority descending (insertion
sort; `Array.prototype.sort` is stable in modern engines). -/
def sortRulesByPriority (rules : List ParsingRule) : List ParsingRule :=
  rules.foldl (fun acc r => insertByPriority r acc) []

/-- `RuleEngine.apply` on an engine whose `this.rules` is the given
(sorted) list and whose hit map is `hits`. -/
def RuleEngine.apply (env : JsEnv) (rules : List ParsingRule) (a : RawActivity)
    (hits : List (String × ℕ)) : Except String RuleResult × List (String × ℕ) :=
  applyRules env rules a emptyRuleResult hits

/-! ### ActivityCategorizer (`categorizers/ActivityCategorizer.ts`) -/

structure CategorizationConfig : Type where
  productive_apps : List String
  distracting_apps : List String
  communication_apps : List String
  learning_apps : List String

/-- `categorizeByType` (reading/typing/clicking/scrolling fall to the
`default` branch together). -/
def categorizeByType (t : String) : String :=
  match t with
  | "coding" => "productive"
  | "documenting" => "productive"
  | "communicating" => "communication"
  | "browsing" => "neutral"
  | "idle" => "break"
  | _ => "neutral"

/-- `categorizeByApplication`: first matching configured list wins, in
the fixed order productive / distracting / communication / learning. -/
def categorizeByApplication (config : CategorizationConfig) (app : String) : Option String :=
  if app = "" then none
  else if config.productive_apps.any (fun p => jsIncludes app (jsToLower p)) then some "productive"
  else if config.distracting_apps.any (fun p => jsIncludes app (jsToLower p)) then some "distracting"
  else if config.communication_apps.any (fun p => jsIncludes app (jsToLower p)) then
    some "communication"
  else if config.learning_apps.any (fun p => jsIncludes app (jsToLower p)) then some "learning"
  else none

def socialMediaSites : List String :=
  ["facebook.com", "twitter.com", "instagram.com", "reddit.com", "tiktok.com", "linkedin.com"]

def entertainmentSites : List String :=
  ["youtube.com", "netflix.com", "twitch.tv", "spotify.com", "soundcloud.com"]

def learningSites : List String :=
  ["coursera.org", "udemy.com", "edx.org", "khanacademy.org", "skillshare.com",
   "docs.", "developer.", "learn."]

def developmentSites : List String :=
  ["github.com", "gitlab.com", "bitbucket.org", "stackoverflow.com", "npmjs.com", "pypi.org"]

/-- `categorizeByUrl`: domain checks against the fixed site lists; a URL
the platform cannot parse is caught and yields no category. -/
def categorizeByUrl (env : JsEnv) (url : String) : Option String :=
  match env.parseUrl url with
  | none => none
  | some urlObj =>
    let domain := jsToLower urlObj.hostname
    if socialMediaSites.any (fun site => jsIncludes domain site) then some "distracting"
    else if entertainmentSites.any (fun site => jsIncludes domain site) then some "entertainment"
    else if learningSites.any (fun site => jsIncludes domain site) then some "learning"
    else if developmentSites.any (fun site => jsIncludes domain site) then some "productive"
    else none

/-- The pre-populated `knownApps` table of `initializeCache`, in source
order. -/
def knownApps : List (String × String) :=
  [("vscode", "productive"), ("visual studio", "productive"), ("intellij", "productive"),
   ("sublime", "productive"), ("atom", "productive"), ("vim", "productive"),
   ("emacs", "productive"), ("excel", "productive"), ("word", "productive"),
   ("powerpoint", "productive"), ("notion", "productive"), ("obsidian", "productive"),
   ("slack", "communication"), ("teams", "communication"), ("discord", "communication"),
   ("telegram", "communication"), ("whatsapp", "communication"), ("skype", "communication"),
   ("zoom", "communication"), ("outlook", "communication"), ("gmail", "communication"),
   ("steam", "entertainment"), ("epic games", "entertainment"), ("vlc", "entertainment"),
   ("spotify", "entertainment"),
   ("chrome", "neutral"), ("firefox", "neutral"), ("safari", "neutral"), ("edge", "neutral")]

/-- The category cache right after construction / `updateConfig`. -/
def initialCache : List (String × String) :=
  knownApps.foldl (fun m kv => objSet m kv.1 kv.2) []

/-- `activity.context?.application?.toLowerCase() || ''`. -/
def appKey (a : RawActivity) : String :=
  match a.context with
  | some c => jsToLower c.application
  | none => ""

/-- `ActivityCategorizer.categorize`: the cache is consulted *first*
(keyed by lower-cased application name, including the pre-populated
`knownApps` entries); only on a miss are the type-, application- and
URL-based categorizations performed, and the result is cached. -/
def categorize (env : JsEnv) (config : CategorizationConfig) (cache : List (String × String))
    (a : RawActivity) (type : String) : String × List (String × String) :=
  let app := appKey a
  match objGet cache app with
  | some c => (c, cache)
  | none =>
    let category := categorizeByType type
    let category :=
      match categorizeByApplication config app with
      | some c => c
      | none => category
    let category :=
      match a.context with
      | some ctx =>
        match ctx.url with
        | some url =>
          if url ≠ "" then
            match categorizeByUrl env url with
            | some c => c
            | none => category
          else category
        | none => category
      | none => category
    (category, objSet cache app category)

/-! ### SessionManager (`managers/SessionManager.ts`) -/

/-- `ParsedActivity` of `types.ts` (the `metadata.confidence` duplicate
of `quality_score`, and the constant `parser_version`, are omitted; the
rule ids and tags of `metadata` are kept). -/
structure ParsedActivity : Type where
  id : String
  timestamp : ℚ
  device_id : String
  session_id : String
  type : String
  duration : Option ℚ
  category : String
  application : String
  window_title : String
  content : List (String × String)
  rules_applied : List String
  tags : List String
  quality_score : ℚ

structure SessionData : Type where
  session_id : String
  device_id : String
  start_time : ℚ
  end_time : Option ℚ
  activities : List ParsedActivity

structure SessionManagerState : Type where
  sessions : List (String × SessionData)
  activityBuffer : List (String × List ParsedActivity)

def initialSessionManagerState : SessionManagerState :=
  { sessions := [], activityBuffer := [] }

def MAX_IDLE_TIME : ℚ := 5 * 60 * 1000

/-- `SessionManager.calculateDuration`: look this activity up *by id*
in the session's buffer; only an entry at a positive index yields a
gap, and the gap is returned only if strictly positive and below
`MAX_IDLE_TIME`. -/
def calculateDuration (st : SessionManagerState) (a : ParsedActivity) : Option ℚ :=
  let buffer := (objGet st.activityBuffer a.session_id).getD []
  if buffer.length < 2 then none
  else
    match jsFindIndex (fun b => b.id == a.id) buffer with
    | none => none
    | some 0 => none
    | some (i + 1) =>
      match buffer[i]? with
      | none => none
      | some previousActivity =>
        let duration := a.timestamp - previousActivity.timestamp
        if duration > 0 ∧ duration < MAX_IDLE_TIME then some duration else none

def createSession (a : ParsedActivity) : SessionData :=
  { session_id := a.session_id, device_id := a.device_id, start_time := a.timestamp,
    end_time := none, activities := [] }

/-- `bufferActivity`: append, evicting the oldest entry past 100. -/
def bufferActivity (buffers : List (String × List ParsedActivity)) (sessionId : String)
    (a : ParsedActivity) : List (String × List ParsedActivity) :=
  let buffer := (objGet buffers sessionId).getD []
  let buffer := buffer ++ [a]
  let buffer := if buffer.length > 100 then buffer.drop 1 else buffer
  objSet buffers sessionId buffer

/-- `SessionManager.addActivity` (a `Date` object is always truthy, so
`!session.end_time` is exactly the `none` check). -/
def addActivity (st : SessionManagerState) (a : ParsedActivity) : SessionManagerState :=
  let session :=
    match objGet st.sessions a.session_id with
    | some s => s
    | none => createSession a
  let session := { session with activities := session.activities ++ [a] }
  let session :=
    match session.end_time with
    | none => { session with end_time := some a.timestamp }
    | some e => if a.timestamp > e then { session with end_time := some a.timestamp } else session
  { sessions := objSet st.sessions a.session_id session,
    activityBuffer := bufferActivity st.activityBuffer a.session_id a }

structure AppSummary : Type where
  name : String
  duration : ℚ
  activity_count : ℕ
  category : String

structure SessionSummary : Type where
  total_duration : ℚ
  active_duration : ℚ
  idle_duration : ℚ
  activity_breakdown : List (String × ℚ)
  category_breakdown : List (String × ℚ)
  top_applications : List AppSummary
  productivity_score : ℚ

/-- Accumulator of the per-activity loop of `getSessionSummary`. -/
structure SummAcc : Type where
  activityBreakdown : List (String × ℚ)
  categoryBreakdown : List (String × ℚ)
  applicationDurations : List (String × ℚ)
  activeDuration : ℚ
  idleDuration : ℚ

/-- One iteration of the `getSessionSummary` loop: `duration || 0` into
the type, category and application maps, and into active or idle time. -/
def summStep (acc : SummAcc) (a : ParsedActivity) : SummAcc :=
  let duration := (a.duration).getD 0
  { activityBreakdown := objIncr acc.activityBreakdown a.type duration,
    categoryBreakdown := objIncr acc.categoryBreakdown a.category duration,
    applicationDurations := objIncr acc.applicationDurations a.application duration,
    activeDuration := if a.type = "idle" then acc.activeDuration else acc.activeDuration + duration,
    idleDuration := if a.type = "idle" then acc.idleDuration + duration else acc.idleDuration }

def emptySummAcc : SummAcc :=
  { activityBreakdown := [], categoryBreakdown := [], applicationDurations := [],
    activeDuration := 0, idleDuration := 0 }

def insertAppByDuration (x : String × ℚ) : List (String × ℚ) → List (String × ℚ)
  | [] => [x]
  | y :: ys => if x.2 > y.2 then x :: y :: ys else y :: insertAppByDuration x ys

/-- `.sort((a, b) => b[1] - a[1])`: stable sort descending by duration. -/
def sortAppsByDuration (l : List (String × ℚ)) : List (String × ℚ) :=
  l.foldl (fun acc x => insertAppByDuration x acc) []

/-- `getApplicationCategory`: most frequent category among the
application's activities (first-seen wins ties; `neutral` if none). -/
def getApplicationCategory (activities : List ParsedActivity) (appName : String) : String :=
  let appActivities := activities.filter (fun a => a.application == appName)
  if appActivities.isEmpty then "neutral"
  else
    let categoryCounts : List (String × ℕ) :=
      appActivities.foldl (fun m a => objSet m a.category ((objGet m a.category).getD 0 + 1)) []
    (categoryCounts.foldl
      (fun best cc => if cc.2 > best.2 then cc else best) ("neutral", 0)).1

/-- The weight table of `calculateProductivityScore`. -/
def productivityWeights : List (String × ℚ) :=
  [("productive", 1), ("learning", 9/10), ("communication", 7/10), ("neutral", 1/2),
   ("break", 2/5), ("entertainment", 1/5), ("distracting", 0)]

/-- `weights[category] || 0.5`: an absent key *or a falsy weight* — in
particular the declared `0.0` for `distracting` — falls back to 0.5. -/
def weightFor (category : String) : ℚ :=
  match objGet productivityWeights category with
  | some w => if w = 0 then 1/2 else w
  | none => 1/2

/-- `calculateProductivityScore`: duration-weighted category blend
scaled to 0–100, ±10% by active-time ratio, clamped to [0, 100]. -/
def calculateProductivityScore (categoryBreakdown : List (String × ℚ))
    (activeDuration totalDuration : ℚ) : ℚ :=
  if totalDuration = 0 then 0
  else
    let ws := categoryBreakdown.foldl
      (fun acc cd => (acc.1 + weightFor cd.1 * cd.2, acc.2 + cd.2)) ((0 : ℚ), (0 : ℚ))
    if ws.2 = 0 then 0
    else
      let score := ws.1 / ws.2 * 100
      let activeRatio := activeDuration / totalDuration
      let score :=
        if activeRatio > 4/5 then score * (11/10)
        else if activeRatio < 1/2 then score * (9/10)
        else score
      min 100 (max 0 score)

/-- `SessionManager.getSessionSummary`. -/
def getSessionSummary (sessions : List (String × SessionData)) (sessionId : String) :
    Option SessionSummary :=
  match objGet sessions sessionId with
  | none => none
  | some session =>
    if session.activities.isEmpty then none
    else
      let totalDuration :=
        match session.end_time with
        | some e => e - session.start_time
        | none => 0
      let acc := session.activities.foldl summStep emptySummAcc
      let topApplications :=
        ((sortAppsByDuration acc.applicationDurations).take 5).map fun nd =>
          { name := nd.1, duration := nd.2,
            activity_count := (session.activities.filter (fun a => a.application == nd.1)).length,
            category := getApplicationCategory session.activities nd.1 : AppSummary }
      some
        { total_duration := totalDuration,
          active_duration := acc.activeDuration,
          idle_duration := acc.idleDuration,
          activity_breakdown := acc.activityBreakdown,
          category_breakdown := acc.categoryBreakdown,
          top_applications := topApplications,
          productivity_score :=
            calculateProductivityScore acc.categoryBreakdown acc.activeDuration totalDuration }

/-! ### ContentExtractor (`extractors/ContentExtractor.ts`) -/

/-- The one input-dependent throw of `ContentExtractor.extract`:
`extractActions` calls `extractApplicationActions` when
`context?.application` is truthy, and its browser-navigation branch runs
`new URL(activity.context.url)` with *no* try/catch when the lower-cased
application name contains `chrome` or `firefox` and `context?.url` is
truthy — an unparseable URL there throws a `TypeError`.  Every other
sub-extraction guards its inputs with `?.`/truthiness checks, matches
fixed regexes, or catches locally (`cleanUrl`), so it cannot throw on
the embedded value space (`data.modifiers`, when present in this
repository's payloads, is an array of strings). -/
def extractThrows (env : JsEnv) (a : RawActivity) : Bool :=
  match a.context with
  | none => false
  | some ctx =>
    let app := jsToLower ctx.application
    app ≠ "" &&
      (jsIncludes app "chrome" || jsIncludes app "firefox") &&
      strTruthy ctx.url &&
      (env.parseUrl ((ctx.url).getD "")).isNone

/-- `ContentExtractor.extract`: throws exactly on the `extractThrows`
path; otherwise it produces the content block, whose value no verified
property inspects and which the environment therefore supplies. -/
def ContentExtractor.extract (env : JsEnv) (a : RawActivity) :
    Except String (List (String × String)) :=
  if extractThrows env a then Except.error "TypeError"
  else Except.ok (env.extractedContent a)

/-! ### ActivityParser (`ActivityParser.ts`) -/

/-- The ten `looksLikeCode` regexes, in source order. -/
def codeIndicators : List JsPattern :=
  [pat [.lit "function".toList, .cls isWsChar 1 none, .cls isWordChar 1 none,
        .cls isWsChar 0 none, .lit "(".toList],
   pat [.lit "class".toList, .cls isWsChar 1 none, .cls isWordChar 1 none],
   pat [.lit "import".toList, .cls isWsChar 1 none, .cls isDotChar 1 none, .lit "from".toList],
   pat [.lit "const".toList, .cls isWsChar 1 none, .cls isWordChar 1 none,
        .cls isWsChar 0 none, .lit "=".toList],
   pat [.lit "let".toList, .cls isWsChar 1 none, .cls isWordChar 1 none,
        .cls isWsChar 0 none, .lit "=".toList],
   pat [.lit "if".toList, .cls isWsChar 0 none, .lit "(".toList, .cls isDotChar 1 none,
        .lit ")".toList, .cls isWsChar 0 none, .lit "\x7b".toList],
   pat [.lit "for".toList, .cls isWsChar 0 none, .lit "(".toList, .cls isDotChar 1 none,
        .lit ")".toList, .cls isWsChar 0 none, .lit "\x7b".toList],
   pat [.cls isWordChar 1 none, .cls isWsChar 0 none, .lit ":".toList, .cls isWsChar 0 none,
        .cls isWordChar 1 none, .cls isWsChar 0 none, .cls (fun c => c == ',' || c == ';') 1 (some 1)],
   pat [.cls isWordChar 1 none, .lit "(".toList, .cls isWsChar 0 none, .lit ")".toList,
        .cls isWsChar 0 none, .lit "\x7b".toList],
   pat [.cls (fun c => c == '\x7b' || c == '\x7d' || c == '[' || c == ']' || c == ';') 1 (some 1)]]

def looksLikeCode (text : String) : Bool :=
  codeIndicators.any fun p => patTest p text

/-- The six `looksLikeDocumentation` regexes, in source order. -/
def docIndicators : List JsPattern :=
  [patAM [.cls (fun c => c == '#') 1 (some 6), .cls isWsChar 1 none],
   patAM [.lit "*".toList, .cls isWsChar 1 none],
   patAM [.cls Char.isDigit 1 none, .lit ".".toList, .cls isWsChar 1 none],
   pat [.lit "[".toList, .cls isDotChar 1 none, .lit "]".toList,
        .lit "(".toList, .cls isDotChar 1 none, .lit ")".toList],
   pat [.lit "```".toList, .cls (fun _ => true) 0 none, .lit "```".toList],
   pat [.lit "@".toList, .cls isWordChar 1 none]]

def looksLikeDocumentation (text : String) : Bool :=
  docIndicators.any fun p => patTest p text

def browserNames : List String :=
  ["chrome", "firefox", "safari", "edge", "opera", "brave"]

def isBrowser (app : Option String) : Bool :=
  match app with
  | none => false
  | some s => if s = "" then false else browserNames.any fun b => jsIncludes (jsToLower s) b

def commAppNames : List String :=
  ["slack", "teams", "discord", "telegram", "whatsapp", "skype", "zoom"]

def isCommunicationApp (app : Option String) : Bool :=
  match app with
  | none => false
  | some s => if s = "" then false else commAppNames.any fun b => jsIncludes (jsToLower s) b

/-- The shared window/application branch of `determineActivityType`. -/
def windowTypeOf (a : RawActivity) : String :=
  if isBrowser ((a.context).map fun c => c.application) then "browsing"
  else if isCommunicationApp ((a.context).map fun c => c.application) then "communicating"
  else "reading"

/-- `determineActivityType` (the `default: IDLE` arm of the source
switch is unreachable for the closed four-variant `raw.type`). -/
def determineActivityType (a : RawActivity) : String :=
  match a.type with
  | RawType.keyboard =>
    match a.processed_text with
    | some t =>
      if t ≠ "" ∧ t.length > 10 then
        if looksLikeCode t then "coding"
        else if looksLikeDocumentation t then "documenting"
        else "typing"
      else "typing"
    | none => "typing"
  | RawType.mouse =>
    match objGet a.data "action" with
    | some v =>
      if jsStrictEq v (JsonVal.str "click") then "clicking"
      else if jsStrictEq v (JsonVal.str "scroll") then "scrolling"
      else "reading"
    | none => "reading"
  | RawType.window => windowTypeOf a
  | RawType.application => windowTypeOf a

/-- `ParserConfig` (the `content_extraction` block configures only the
opaque extractor). -/
structure ParserConfig : Type where
  rules : List ParsingRule
  quality_thresholds : QualityThresholds
  categorization : CategorizationConfig

/-- The mutable state of an `ActivityParser` instance: session manager
state, categorizer cache, rule-engine hit counters. -/
structure ParserState : Type where
  sm : SessionManagerState
  cache : List (String × String)
  ruleHits : List (String × ℕ)

def initialParserState : ParserState :=
  { sm := initialSessionManagerState, cache := initialCache, ruleHits := [] }

/-- `ActivityParser.parseActivity`.  The surrounding `try`/`catch`
returns `null` for the record when any step throws; the two throwing
steps are the content extractor's uncaught `new URL` call (step 3,
before the categorizer runs, so nothing has been mutated yet) and the
rule engine's `new RegExp` calls (step 5, after the categorizer cache
was written and with the rule hits recorded so far), and mutations
performed before a throw persist. -/
def parseActivity (env : JsEnv) (cfg : ParserConfig) (st : ParserState) (raw : RawActivity) :
    Option ParsedActivity × ParserState :=
  let qualityScore := analyze env cfg.quality_thresholds raw
  if qualityScore < cfg.quality_thresholds.min_confidence then (none, st)
  else
    let activityType := determineActivityType raw
    match ContentExtractor.extract env raw with
    | Except.error _ => (none, st)
    | Except.ok content =>
    let catc := categorize env cfg.categorization st.cache raw activityType
    match RuleEngine.apply env (sortRulesByPriority cfg.rules) raw st.ruleHits with
    | (Except.error _, ruleHits) => (none, { st with cache := catc.2, ruleHits := ruleHits })
    | (Except.ok ruleResults, ruleHits) =>
      let parsed : ParsedActivity :=
        { id := raw.id,
          timestamp := raw.timestamp,
          device_id := raw.device_id,
          session_id := raw.session_id,
          type :=
            match ruleResults.type with
            | some t => if t ≠ "" then t else activityType
            | none => activityType,
          duration := none,
          category :=
            match ruleResults.category with
            | some c => if c ≠ "" then c else catc.1
            | none => catc.1,
          application :=
            match raw.context with
            | some c => if c.application ≠ "" then c.application else "Unknown"
            | none => "Unknown",
          window_title :=
            match raw.context with
            | some c => c.window_title
            | none => "",
          content := objMerge content ruleResults.content,
          rules_applied := ruleResults.applied_rules,
          tags := ruleResults.tags,
          quality_score := qualityScore }
      let duration := calculateDuration st.sm parsed
      let parsed :=
        match duration with
        | some d => if d ≠ 0 then { parsed with duration := some d } else parsed
        | none => parsed
      let sm := addActivity st.sm parsed
      (some parsed, { sm := sm, cache := catc.2, ruleHits := ruleHits })

/-- Sequential folding of records through `parseActivity` (how a
consumer feeds a session; each record's session fold is atomic). -/
def parseAll (env : JsEnv) (cfg : ParserConfig) : ParserState → List RawActivity → ParserState
  | st, [] => st
  | st, raw :: rest => parseAll env cfg (parseActivity env cfg st raw).2 rest

/-! ### Specification predicates -/

/-- A platform environment whose `RegExp` constructor rejects every
configuration-supplied pattern and whose `URL` constructor throws on
every URL; the clock reads 5 ms. -/
def envC1 : JsEnv :=
  { compileRegex := fun _ => none, parseUrl := fun _ => none, now := 5,
    extractedContent := fun _ => [] }

/-- A plain, fully-populated keyboard record (no text, no context). -/
def recPlain : RawActivity :=
  { id := "a1", timestamp := 5, device_id := "d", session_id := "s1",
    type := RawType.keyboard, data := [], processed_text := none, context := none }

/-- An enabled rule whose `matches` condition carries the invalid
regex `(`. -/
def badRegexRule : ParsingRule :=
  { id := "bad", name := "Bad Regex", description := "invalid pattern", priority := 10,
    enabled := true,
    conditions := [{ field := "id", operator := "matches", value := JsonVal.str "(" }],
    actions := [] }

def emptyCategorization : CategorizationConfig :=
  { productive_apps := [], distracting_apps := [], communication_apps := [],
    learning_apps := [] }

/-- Configuration with the invalid-regex rule and `min_confidence = 0`. -/
def cfgC1 : ParserConfig :=
  { rules := [badRegexRule],
    quality_thresholds := { min_confidence := 0, min_text_length := 10,
                            max_idle_duration := 300000 },
    categorization := emptyCategorization }

/-- Configuration with no rules and `min_confidence = 0.5`. -/
def cfgOk : ParserConfig :=
  { rules := [],
    quality_thresholds := { min_confidence := 1/2, min_text_length := 10,
                            max_idle_duration := 300000 },
    categorization := emptyCategorization }

/-- Invariant: every stored activity carries no duration, and every
buffered activity's id belongs to `done`. -/
def noDurationsState (sm : SessionManagerState) (done : List String) : Prop :=
  (∀ sid sd, objGet sm.sessions sid = some sd → ∀ p ∈ sd.activities, p.duration = none) ∧
  (∀ sid buf, objGet sm.activityBuffer sid = some buf → ∀ p ∈ buf, p.id ∈ done)

/-- The zero-aggregate property of a summary accumulator. -/
def summAccZero (acc : SummAcc) : Prop :=
  acc.activeDuration = 0 ∧ acc.idleDuration = 0 ∧
  (∀ kv ∈ acc.activityBreakdown, kv.2 = 0) ∧ (∀ kv ∈ acc.categoryBreakdown, kv.2 = 0)

def junkParsed : ParsedActivity :=
  { id := "", timestamp := 0, device_id := "", session_id := "", type := "", duration := none,
    category := "", application := "", window_title := "", content := [], rules_applied := [],
    tags := [], quality_score := 0 }

def junkSummary : SessionSummary :=
  { total_duration := 0, active_duration := 0, idle_duration := 0, activity_breakdown := [],
    category_breakdown := [], top_applications := [], productivity_score := 0 }

/-- The activity produced by one concrete `parseActivity` run. -/
def pC2 : ParsedActivity :=
  ((parseActivity envC1 cfgOk initialParserState recPlain).1).getD junkParsed

/-- The summary of the session fed with that one record. -/
def sumC2 : SessionSummary :=
  (getSessionSummary (parseAll envC1 cfgOk initialParserState [recPlain]).sm.sessions
    "s1").getD junkSummary

def actC3a : ParsedActivity :=
  { id := "a", timestamp := 0, device_id := "dev", session_id := "s1", type := "coding",
    duration := some 2400000, category := "productive", application := "vscode",
    window_title := "", content := [], rules_applied := [], tags := [], quality_score := 1 }

def actC3b : ParsedActivity :=
  { actC3a with
    id := "b"
    timestamp := 3600000
    type := "browsing"
    duration := some 1200000
    category := "distracting"
    application := "chrome" }

/-- A one-hour session: 40 min productive, 20 min distracting, no idle. -/
def sessC3 : SessionData :=
  { session_id := "s1", device_id := "dev", start_time := 0, end_time := some 3600000,
    activities := [actC3a, actC3b] }

def recC4 : RawActivity :=
  { id := "x", timestamp := 10, device_id := "d", session_id := "s", type := RawType.keyboard,
    data := [], processed_text := none,
    context := some { application := "app", window_title := "w", process_name := none,
                      url := none } }

def thC4 : QualityThresholds :=
  { min_confidence := 1/2, min_text_length := 10, max_idle_duration := 300000 }

def recC5 : RawActivity :=
  { id := "x", timestamp := 1, device_id := "", session_id := "", type := RawType.keyboard,
    data := [], processed_text := none, context := none }

def emptyCondRule : ParsingRule :=
  { id := "r1", name := "Empty", description := "no conditions", priority := 10,
    enabled := true, conditions := [], actions := [RuleAction.add_tag "t"] }

def emptyCondRes : RuleResult :=
  { type := none, category := none, tags := ["t"], content := [], applied_rules := [] }

def exclRule : ParsingRule :=
  { id := "excl", name := "Exclusive", description := "sets a type", priority := 5,
    enabled := true, conditions := [], actions := [RuleAction.set_type "coding"] }

def tagRule : ParsingRule :=
  { id := "tag", name := "Tag", description := "adds a tag", priority := 1, enabled := true,
    conditions := [], actions := [RuleAction.add_tag "later"] }

/-- The summary of the concrete session `sessC3`. -/
def sumC9 : SessionSummary :=
  (getSessionSummary [("s1", sessC3)] "s1").getD junkSummary

def recChrome : RawActivity :=
  { id := "c1", timestamp := 1, device_id := "d", session_id := "s",
    type := RawType.window, data := [], processed_text := none,
    context := some { application := "chrome", window_title := "YouTube",
                      process_name := none, url := some "https://youtube.com/watch?v=x" } }

/-- A URL oracle that parses the fixture URL to host `youtube.com`,
path `/watch` (everything else fails to parse). -/
def envUrl : JsEnv :=
  { compileRegex := fun _ => none,
    parseUrl := fun u =>
      if u = "https://youtube.com/watch?v=x" then
        some { hostname := "youtube.com", pathname := "/watch" }
      else none,
    now := 5, extractedContent := fun _ => [] }

def ctxFresh : ApplicationContext :=
  { application := "mybrowser", window_title := "YouTube", process_name := none,
    url := some "https://youtube.com/watch?v=x" }

def recFresh : RawActivity :=
  { recChrome with context := some ctxFresh }

theorem objGet_objSet {β : Type} (m : List (String × β)) (k k' : String) (v : β) :
    objGet (objSet m k v) k' = if k = k' then some v else objGet m k' := by
  induction m with
  | nil => simp [objGet, objSet]
  | cons kv rest ih =>
    obtain ⟨k0, v0⟩ := kv
    by_cases h0 : k0 = k
    · subst h0
      simp only [objSet, if_pos rfl, objGet]
      by_cases h1 : k0 = k'
      · simp [h1]
      · simp [h1, objGet]
    · simp only [objSet, if_neg h0, objGet]
      by_cases h1 : k0 = k'
      · subst h1
        have : ¬ k = k0 := fun h => h0 h.symm
        simp [this]
      · simp [h1, ih]

theorem objGet_mem {β : Type} (m : List (String × β)) (k : String) (v : β)
    (h : objGet m k = some v) : (k, v) ∈ m := by
  induction m with
  | nil => simp [objGet] at h
  | cons kv rest ih =>
    obtain ⟨k0, v0⟩ := kv
    simp only [objGet] at h
    split at h
    · rename_i h0
      subst h0
      obtain rfl : v0 = v := by injection h
      exact List.mem_cons_self _ _
    · exact List.mem_cons_of_mem _ (ih h)

theorem mem_objSet {β : Type} (m : List (String × β)) (k : String) (v : β)
    (x : String × β) (h : x ∈ objSet m k v) : x = (k, v) ∨ x ∈ m := by
  induction m with
  | nil => simpa [objSet] using h
  | cons kv rest ih =>
    obtain ⟨k0, v0⟩ := kv
    simp only [objSet] at h
    split at h
    · rcases List.mem_cons.mp h with h1 | h1
      · exact Or.inl h1
      · exact Or.inr (List.mem_cons_of_mem _ h1)
    · rcases List.mem_cons.mp h with h1 | h1
      · exact Or.inr (h1 ▸ List.mem_cons_self _ _)
      · rcases ih h1 with h2 | h2
        · exact Or.inl h2
        · exact Or.inr (List.mem_cons_of_mem _ h2)

theorem sumValues_cons (kv : String × ℚ) (m : List (String × ℚ)) :
    sumValues (kv :: m) = kv.2 + sumValues m := by
  simp [sumValues]

theorem sumValues_objIncr (m : List (String × ℚ)) (k : String) (d : ℚ) :
    sumValues (objIncr m k d) = sumValues m + d := by
  induction m with
  | nil => simp [objIncr, objSet, objGet, sumValues]
  | cons kv rest ih =>
    obtain ⟨k0, v0⟩ := kv
    by_cases h0 : k0 = k
    · subst h0
      simp only [objIncr, objGet, if_pos rfl, objSet]
      simp [sumValues]
      ring
    · have hstep : objIncr ((k0, v0) :: rest) k d = (k0, v0) :: objIncr rest k d := by
        simp [objIncr, objGet, objSet, h0]
      rw [hstep, sumValues_cons, ih, sumValues_cons]
      ring

theorem jsFindIndex_eq_none {α : Type} (p : α → Bool) (l : List α)
    (h : ∀ x ∈ l, p x = false) : jsFindIndex p l = none := by
  induction l with
  | nil => rfl
  | cons x rest ih =>
    simp only [jsFindIndex, h x (List.mem_cons_self _ _)]
    rw [ih fun y hy => h y (List.mem_cons_of_mem _ hy)]
    rfl

/-- A record whose id is not in its session's buffer gets no inferred
duration: `findIndex` misses, `calculateDuration` returns null. -/
theorem calculateDuration_eq_none_of_fresh (st : SessionManagerState) (a : ParsedActivity)
    (h : ∀ b ∈ (objGet st.activityBuffer a.session_id).getD [], b.id ≠ a.id) :
    calculateDuration st a = none := by
  unfold calculateDuration
  dsimp only
  split
  · rfl
  · rw [jsFindIndex_eq_none _ _ fun b hb => beq_eq_false_iff_ne.mpr (h b hb)]

theorem noDurationsState_mono (sm : SessionManagerState) (d1 d2 : List String)
    (hsub : ∀ x ∈ d1, x ∈ d2) (h : noDurationsState sm d1) : noDurationsState sm d2 :=
  ⟨h.1, fun sid buf hb p hp => hsub _ (h.2 sid buf hb p hp)⟩

theorem mem_drop_one {α : Type} (l : List α) (x : α) (h : x ∈ l.drop 1) : x ∈ l := by
  cases l with
  | nil => simp at h
  | cons y ys => exact List.mem_cons_of_mem _ h

theorem addActivity_noDurations (sm : SessionManagerState) (done : List String)
    (a : ParsedActivity) (h : noDurationsState sm done) (hdur : a.duration = none) :
    noDurationsState (addActivity sm a) (done ++ [a.id]) := by
  constructor
  · intro sid sd hsd p hp
    unfold addActivity at hsd
    dsimp only at hsd
    rw [objGet_objSet] at hsd
    split at hsd
    · -- sid is the activity's session; sd is the updated session
      obtain rfl := Option.some.inj hsd
      -- the updated session's activities are base.activities ++ [a]
      have hacts : ∀ q, q ∈ (match objGet sm.sessions a.session_id with
            | some s => s
            | none => createSession a).activities ++ [a] → q.duration = none := by
        intro q hq
        rcases List.mem_append.mp hq with hq1 | hq1
        · rcases hbase : objGet sm.sessions a.session_id with _ | s0
          · rw [hbase] at hq1
            exact absurd hq1 (List.not_mem_nil q)
          · rw [hbase] at hq1
            exact h.1 _ s0 hbase q hq1
        · rw [List.mem_singleton] at hq1
          exact hq1 ▸ hdur
      revert hp
      split
      · exact fun hp => hacts p hp
      · split
        · exact fun hp => hacts p hp
        · exact fun hp => hacts p hp
    · exact h.1 sid sd hsd p hp
  · intro sid buf hbuf p hp
    unfold addActivity at hbuf
    dsimp only at hbuf
    unfold bufferActivity at hbuf
    rw [objGet_objSet] at hbuf
    split at hbuf
    · obtain rfl := Option.some.inj hbuf
      have hp2 : p ∈ (objGet sm.activityBuffer a.session_id).getD [] ++ [a] := by
        revert hp
        split
        · exact fun hp => mem_drop_one _ p hp
        · exact fun hp => hp
      rcases List.mem_append.mp hp2 with hq | hq
      · rcases hold : objGet sm.activityBuffer a.session_id with _ | old
        · rw [hold] at hq
          exact absurd hq (List.not_mem_nil p)
        · rw [hold] at hq
          exact List.mem_append_left _ (h.2 _ old hold p hq)
      · rw [List.mem_singleton] at hq
        exact List.mem_append_right _ (hq ▸ List.mem_singleton.mpr rfl)
    · exact List.mem_append_left _ (h.2 sid buf hbuf p hp)

theorem parseActivity_noDurations (env : JsEnv) (cfg : ParserConfig) (st : ParserState)
    (done : List String) (raw : RawActivity)
    (hinv : noDurationsState st.sm done) (hfresh : raw.id ∉ done) :
    noDurationsState (parseActivity env cfg st raw).2.sm (done ++ [raw.id]) := by
  have hmono := noDurationsState_mono st.sm done (done ++ [raw.id])
    (fun x hx => List.mem_append_left _ hx) hinv
  have hfreshbuf : ∀ b ∈ (objGet st.sm.activityBuffer raw.session_id).getD [],
      b.id ≠ raw.id := by
    intro b hb heq
    rcases hbufg : objGet st.sm.activityBuffer raw.session_id with _ | buf
    · rw [hbufg] at hb
      exact absurd hb (List.not_mem_nil b)
    · rw [hbufg] at hb
      exact hfresh (heq ▸ hinv.2 _ buf hbufg b hb)
  unfold parseActivity
  dsimp only
  split
  · exact hmono
  · cases hext : ContentExtractor.extract env raw with
    | error e => exact hmono
    | ok content =>
      rcases happ : RuleEngine.apply env (sortRulesByPriority cfg.rules) raw st.ruleHits
        with ⟨res, hits⟩
      cases res with
      | error e => exact hmono
      | ok rr =>
        dsimp only
        rw [calculateDuration_eq_none_of_fresh st.sm _ (by exact hfreshbuf)]
        exact addActivity_noDurations st.sm done _ hinv rfl

theorem parseAll_noDurations (env : JsEnv) (cfg : ParserConfig) :
    ∀ (raws : List RawActivity) (st : ParserState) (done : List String),
      noDurationsState st.sm done →
      List.Pairwise (fun x y => x.id ≠ y.id) raws →
      (∀ r ∈ raws, r.id ∉ done) →
      noDurationsState (parseAll env cfg st raws).sm
        (done ++ raws.map (fun r => r.id)) := by
  intro raws
  induction raws with
  | nil =>
    intro st done h _ _
    simpa using h
  | cons raw rest ih =>
    intro st done hinv hpw hfresh
    rw [List.pairwise_cons] at hpw
    have h1 := parseActivity_noDurations env cfg st done raw hinv
      (hfresh raw (List.mem_cons_self _ _))
    have h2 := ih (parseActivity env cfg st raw).2 (done ++ [raw.id]) h1 hpw.2 ?hf
    case hf =>
      intro r hr hmem
      rcases List.mem_append.mp hmem with hm | hm
      · exact hfresh r (List.mem_cons_of_mem _ hr) hm
      · rw [List.mem_singleton] at hm
        exact hpw.1 r hr hm.symm
    simp only [parseAll]
    simpa [List.append_assoc] using h2

theorem objIncr_zero_values (m : List (String × ℚ)) (k : String)
    (h : ∀ kv ∈ m, kv.2 = 0) : ∀ kv ∈ objIncr m k 0, kv.2 = 0 := by
  intro kv hkv
  rcases mem_objSet _ _ _ _ hkv with h1 | h1
  · subst h1
    rcases hg : objGet m k with _ | v
    · simp [hg]
    · have hv : v = 0 := h _ (objGet_mem m k v hg)
      simp [hg, hv]
  · exact h kv h1

theorem summFold_zero (acts : List ParsedActivity) (hall : ∀ p ∈ acts, p.duration = none) :
    ∀ acc, summAccZero acc → summAccZero (acts.foldl summStep acc) := by
  induction acts with
  | nil => intro acc h; simpa using h
  | cons a rest ih =>
    intro acc h
    simp only [List.foldl_cons]
    apply ih fun p hp => hall p (List.mem_cons_of_mem _ hp)
    have hd : a.duration = none := hall a (List.mem_cons_self _ _)
    unfold summStep
    rw [hd]
    refine ⟨?_, ?_, ?_, ?_⟩
    · dsimp only
      split <;> simp [h.1]
    · dsimp only
      split <;> simp [h.2.1]
    · exact objIncr_zero_values _ _ h.2.2.1
    · exact objIncr_zero_values _ _ h.2.2.2

theorem getSessionSummary_zero (sessions : List (String × SessionData)) (sid : String)
    (s : SessionSummary)
    (hact : ∀ sid' sd, objGet sessions sid' = some sd → ∀ p ∈ sd.activities, p.duration = none)
    (h : getSessionSummary sessions sid = some s) :
    s.active_duration = 0 ∧ s.idle_duration = 0 ∧
    (∀ kv ∈ s.activity_breakdown, kv.2 = 0) ∧ (∀ kv ∈ s.category_breakdown, kv.2 = 0) := by
  unfold getSessionSummary at h
  rcases hses : objGet sessions sid with _ | session
  · rw [hses] at h
    exact absurd h (by simp)
  · rw [hses] at h
    dsimp only at h
    split at h
    · exact absurd h (by simp)
    · have hz := summFold_zero session.activities (hact sid session hses) emptySummAcc
        ⟨rfl, rfl, fun kv hkv => absurd hkv (List.not_mem_nil kv),
          fun kv hkv => absurd hkv (List.not_mem_nil kv)⟩
      obtain rfl := Option.some.inj h
      exact ⟨hz.1, hz.2.1, hz.2.2.1, hz.2.2.2⟩

/-- C2: `parseActivity` infers the duration (step 7) *before*
`addActivity` buffers the record (step 8), so a record whose id is not
yet in its session's duration buffer gets no `duration` field; and for
any batch of records with pairwise-distinct ids fed through
`parseActivity` from a fresh parser, every duration-based aggregate of
`getSessionSummary` (active and idle time, type and category
breakdowns) is 0. -/
theorem C2_step_order_starves_durations :
    (∀ (env : JsEnv) (cfg : ParserConfig) (st : ParserState) (raw : RawActivity)
       (p : ParsedActivity) (st' : ParserState),
       (∀ b ∈ (objGet st.sm.activityBuffer raw.session_id).getD [], b.id ≠ raw.id) →
       parseActivity env cfg st raw = (some p, st') → p.duration = none) ∧
    (∀ (env : JsEnv) (cfg : ParserConfig) (raws : List RawActivity) (sid : String)
       (s : SessionSummary),
       List.Pairwise (fun x y => x.id ≠ y.id) raws →
       getSessionSummary (parseAll env cfg initialParserState raws).sm.sessions sid = some s →
       s.active_duration = 0 ∧ s.idle_duration = 0 ∧
       (∀ kv ∈ s.activity_breakdown, kv.2 = 0) ∧
       (∀ kv ∈ s.category_breakdown, kv.2 = 0)) := by
  constructor
  · intro env cfg st raw p st' hbuf hp
    unfold parseActivity at hp
    dsimp only at hp
    split at hp
    · simp at hp
    · rcases hext : ContentExtractor.extract env raw with e | content
      · rw [hext] at hp
        simp at hp
      · rw [hext] at hp
        rcases happ : RuleEngine.apply env (sortRulesByPriority cfg.rules) raw st.ruleHits
          with ⟨res, hits⟩
        rw [happ] at hp
        cases res with
        | error e => simp at hp
        | ok rr =>
          dsimp only at hp
          rw [calculateDuration_eq_none_of_fresh st.sm _ (by exact hbuf)] at hp
          simp only [Prod.mk.injEq, Option.some.injEq] at hp
          rw [← hp.1]
  · intro env cfg raws sid s hpw hsum
    have hinv0 : noDurationsState initialParserState.sm [] := by
      constructor
      · intro sid' sd h
        simp [initialParserState, initialSessionManagerState, objGet] at h
      · intro sid' buf h
        simp [initialParserState, initialSessionManagerState, objGet] at h
    have hfin := parseAll_noDurations env cfg raws initialParserState [] hinv0 hpw
      (fun r _ hmem => List.not_mem_nil _ hmem)
    exact getSessionSummary_zero _ sid s hfin.1 hsum

/-- C2 witness: both halves instantiated at a concrete record. -/
theorem C2_witness :
    pC2.duration = none ∧ sumC2.active_duration = 0 ∧ sumC2.idle_duration = 0 :=
  ⟨C2_step_order_starves_durations.1 envC1 cfgOk initialParserState recPlain pC2
      (parseActivity envC1 cfgOk initialParserState recPlain).2
      (fun b hb => absurd hb (List.not_mem_nil b)) rfl,
   (C2_step_order_starves_durations.2 envC1 cfgOk [recPlain] "s1" sumC2
      (by simp) rfl).1,
   (C2_step_order_starves_durations.2 envC1 cfgOk [recPlain] "s1" sumC2
      (by simp) rfl).2.1⟩

/-! #### Claims C3, C4, C5 -/

/-- C3 (code bug): `weights[category] || 0.5` treats the declared 0.0
weight of `distracting` as falsy, so distracting time is weighted 0.5.
On the claim's own example session the code yields a base score of
83.33 and a final score of 275/3 ≈ 91.67, not the claimed ≈ 66.7 base /
73.3 final. -/
theorem C3_code_eval :
    weightFor "distracting" = 1/2 ∧
    (getSessionSummary [("s1", sessC3)] "s1").map (fun s => s.productivity_score) =
      some (275/3) := by
  constructor
  · rfl
  · rfl

/-- C4 (code bug): the weights are applied by *index into the compacted
scores array*.  For a record with a context but no text and a future
timestamp (sub-scores 1, 1, 0.3, 1), the context sub-score takes the
text weight 0.3 and the anomaly sub-score takes 0.2, giving
(0.2 + 0.3 + 0.06 + 0.2) / 0.9 = 38/45 ≈ 0.844 — not the claimed
own-weight normalization (0.2 + 0.2 + 0.06 + 0.1) / 0.7 = 4/5. -/
theorem C4_code_eval :
    analyze envC1 thC4 recC4 = 38/45 ∧ (38 : ℚ)/45 ≠ 4/5 := by
  constructor
  · rfl
  · decide

/-- C5 (code bug): `calculateCompletenessScore` adds each present
field's weight to the numerator *and* the denominator, so a record with
empty `device_id` and `session_id` (and nothing optional) still scores
exactly 1, not the claimed fraction strictly below 1. -/
theorem C5_code_eval : calculateCompletenessScore recC5 = 1 := by decide

/-! #### Claim C6 -/

/-- C6 counterexample: an enabled rule with an empty conditions list
*does* match (`every` on `[]` is true): its action runs, its id lands in
`applied_rules`, and its hit counter increments. -/
theorem C6_counterexample :
    RuleEngine.apply envC1 [emptyCondRule] recPlain [] =
      (Except.ok { type := none, category := none, tags := ["t"], content := [],
                   applied_rules := ["r1"] },
       [("r1", 1)]) := rfl

/-- C6 (amended): an enabled rule with zero conditions always matches:
`apply` runs its actions, appends its id to `applied_rules` and
increments its hit counter (continuing below it only when the rule is
not exclusive). -/
theorem C6_empty_conditions_always_match (env : JsEnv) (r : ParsingRule)
    (rest : List ParsingRule) (a : RawActivity) (res res' : RuleResult)
    (hits : List (String × ℕ)) (hen : r.enabled = true) (hc : r.conditions = [])
    (hact : applyActions env r.actions a res = Except.ok res') :
    applyRules env (r :: rest) a res hits =
      (if isExclusiveRule r then
        (Except.ok { res' with applied_rules := res'.applied_rules ++ [r.id] },
         recordHit hits r.id)
       else
        applyRules env rest a { res' with applied_rules := res'.applied_rules ++ [r.id] }
          (recordHit hits r.id)) := by
  simp only [applyRules, hen, Bool.not_true, Bool.false_eq_true, if_false, hact]
  rw [hc]
  simp only [evaluateConditions]

/-- C6 witness: the amended statement at a concrete rule and record. -/
theorem C6_witness :
    applyRules envC1 (emptyCondRule :: []) recPlain emptyRuleResult [] =
      (if isExclusiveRule emptyCondRule then
        (Except.ok { emptyCondRes with
            applied_rules := emptyCondRes.applied_rules ++ [emptyCondRule.id] },
         recordHit [] emptyCondRule.id)
       else
        applyRules envC1 [] recPlain
          { emptyCondRes with
            applied_rules := emptyCondRes.applied_rules ++ [emptyCondRule.id] }
          (recordHit [] emptyCondRule.id)) :=
  C6_empty_conditions_always_match envC1 emptyCondRule [] recPlain emptyRuleResult
    emptyCondRes [] rfl rfl rfl

/-! #### Claim C7 -/

/-- C7: once an enabled *exclusive* rule (its actions include set_type
or set_category) has its conditions evaluate to true, `apply`'s loop
stops there: running the engine over `l₁ ++ r :: l₂` equals running it
over `l₁ ++ [r]` from any intermediate result/hit state, so no action of
any rule after `r` is applied and no further rule id is recorded. -/
theorem C7_exclusive_rule_stops_evaluation (env : JsEnv) (l₁ l₂ : List ParsingRule)
    (r : ParsingRule) (a : RawActivity)
    (hen : r.enabled = true) (hex : isExclusiveRule r = true)
    (hm : evaluateConditions env r.conditions a = Except.ok true) :
    ∀ (res : RuleResult) (hits : List (String × ℕ)),
      applyRules env (l₁ ++ r :: l₂) a res hits = applyRules env (l₁ ++ [r]) a res hits := by
  induction l₁ with
  | nil =>
    intro res hits
    simp only [List.nil_append, applyRules, hen, Bool.not_true, Bool.false_eq_true,
      if_false, hm]
    cases happ : applyActions env r.actions a res with
    | error e => rfl
    | ok r' => simp [hex]
  | cons x xs ih =>
    intro res hits
    simp only [List.cons_append, applyRules]
    cases hxe : x.enabled with
    | false =>
      simp only [hxe, Bool.not_false, if_true]
      exact ih res hits
    | true =>
      simp only [hxe, Bool.not_true, Bool.false_eq_true, if_false]
      cases hcond : evaluateConditions env x.conditions a with
      | error e => rfl
      | ok b =>
        cases b
        · exact ih res hits
        · cases hact : applyActions env x.actions a res with
          | error e => rfl
          | ok r' =>
            dsimp only
            by_cases hx : isExclusiveRule x
            · simp [hx]
            · simp only [hx, Bool.false_eq_true, if_false]
              exact ih _ _

/-- C7 witness: with an exclusive rule between two tag rules, the run
equals the run that ends at the exclusive rule. -/
theorem C7_witness :
    applyRules envC1 ([tagRule] ++ exclRule :: [tagRule]) recPlain emptyRuleResult [] =
      applyRules envC1 ([tagRule] ++ [exclRule]) recPlain emptyRuleResult [] :=
  C7_exclusive_rule_stops_evaluation envC1 [tagRule] [tagRule] exclRule recPlain
    rfl rfl rfl emptyRuleResult []

/-! #### Claim C8 -/

/-- C8 counterexample: an invalid `matches` regex is *not* caught inside
the engine — `apply` ends in a thrown `SyntaxError`, not a normal
`RuleResult`. -/
theorem C8_counterexample :
    RuleEngine.apply envC1 [badRegexRule] recPlain [] =
      (Except.error "SyntaxError", []) := rfl

/-- C8 (amended): an invalid regular expression is not caught at the
point of use.  (1) A `matches` condition whose pattern does not compile
throws a `SyntaxError` when the addressed field value is a string;
(2) when the field value is not a string the regex is never compiled
and the condition evaluates to false without throwing; (3) an
`extract_content` action whose pattern does not compile throws when the
addressed field value is a string and the pattern is truthy; (4) with a
non-string field value the action is a silent no-op; (5) a thrown
condition aborts `evaluateConditions` wherever it sits, provided the
earlier conditions evaluated to true; (6) disabled and non-matching
rules ahead of the throwing rule are skipped without effect; (7) when
the throwing rule is reached enabled, the exception escapes the whole
rule loop — from a throwing condition list or (8) from a throwing
action list, (9) wherever the throwing action sits after succeeding
ones; (10) the exception is caught only at the `ActivityParser`
boundary, which returns null for the record. -/
theorem C8_invalid_regex_escapes_apply :
    (∀ (env : JsEnv) (c : RuleCondition) (a : RawActivity) (s : String),
      c.operator = "matches" → getFieldValue a c.field = some (JsonVal.str s) →
      env.compileRegex (jsToString c.value) = none →
      evaluateCondition env c a = Except.error "SyntaxError") ∧
    (∀ (env : JsEnv) (c : RuleCondition) (a : RawActivity),
      c.operator = "matches" →
      (∀ s, getFieldValue a c.field ≠ some (JsonVal.str s)) →
      evaluateCondition env c a = Except.ok false) ∧
    (∀ (env : JsEnv) (f p t : String) (a : RawActivity) (r : RuleResult) (s : String),
      getFieldValue a f = some (JsonVal.str s) → p ≠ "" →
      env.compileRegex p = none →
      applyAction env (RuleAction.extract_content f p t) a r =
        Except.error "SyntaxError") ∧
    (∀ (env : JsEnv) (f p t : String) (a : RawActivity) (r : RuleResult),
      (∀ s, getFieldValue a f ≠ some (JsonVal.str s)) →
      applyAction env (RuleAction.extract_content f p t) a r = Except.ok r) ∧
    (∀ (env : JsEnv) (cs₁ cs₂ : List RuleCondition) (c : RuleCondition)
        (a : RawActivity) (e : String),
      (∀ c' ∈ cs₁, evaluateCondition env c' a = Except.ok true) →
      evaluateCondition env c a = Except.error e →
      evaluateConditions env (cs₁ ++ c :: cs₂) a = Except.error e) ∧
    (∀ (env : JsEnv) (x : ParsingRule) (rest : List ParsingRule) (a : RawActivity)
        (res : RuleResult) (hits : List (String × ℕ)),
      (x.enabled = false ∨ evaluateConditions env x.conditions a = Except.ok false) →
      applyRules env (x :: rest) a res hits = applyRules env rest a res hits) ∧
    (∀ (env : JsEnv) (r : ParsingRule) (rest : List ParsingRule) (a : RawActivity)
        (res : RuleResult) (hits : List (String × ℕ)) (e : String),
      r.enabled = true → evaluateConditions env r.conditions a = Except.error e →
      applyRules env (r :: rest) a res hits = (Except.error e, hits)) ∧
    (∀ (env : JsEnv) (r : ParsingRule) (rest : List ParsingRule) (a : RawActivity)
        (res : RuleResult) (hits : List (String × ℕ)) (e : String),
      r.enabled = true → evaluateConditions env r.conditions a = Except.ok true →
      applyActions env r.actions a res = Except.error e →
      applyRules env (r :: rest) a res hits = (Except.error e, hits)) ∧
    (∀ (env : JsEnv) (acts₁ acts₂ : List RuleAction) (act : RuleAction)
        (a : RawActivity) (r r₁ : RuleResult) (e : String),
      applyActions env acts₁ a r = Except.ok r₁ →
      applyAction env act a r₁ = Except.error e →
      applyActions env (acts₁ ++ act :: acts₂) a r = Except.error e) ∧
    (∀ (env : JsEnv) (cfg : ParserConfig) (st : ParserState) (raw : RawActivity)
        (e : String) (hits' : List (String × ℕ)),
      ¬ analyze env cfg.quality_thresholds raw <
          cfg.quality_thresholds.min_confidence →
      extractThrows env raw = false →
      RuleEngine.apply env (sortRulesByPriority cfg.rules) raw st.ruleHits =
        (Except.error e, hits') →
      (parseActivity env cfg st raw).1 = none) := by
  refine ⟨?_, ?_, ?_, ?_, ?_, ?_, ?_, ?_, ?_, ?_⟩
  · intro env c a s hop hfv hre
    unfold evaluateCondition
    rw [hop, hfv]
    dsimp only
    rw [hre]
    rfl
  · intro env c a hop hns
    unfold evaluateCondition
    rw [hop]
    cases hval : getFieldValue a c.field with
    | none => rfl
    | some v =>
      cases v with
      | str s => exact absurd hval (hns s)
      | num q => rfl
      | bool b => rfl
      | obj fields => rfl
  · intro env f p t a r s hfv hp hre
    show extractContent env f p t a r = Except.error "SyntaxError"
    unfold extractContent
    rw [hfv]
    dsimp only
    rw [if_pos hp, hre]
  · intro env f p t a r hns
    show extractContent env f p t a r = Except.ok r
    unfold extractContent
    cases hval : getFieldValue a f with
    | none => rfl
    | some v =>
      cases v with
      | str s => exact absurd hval (hns s)
      | num q => rfl
      | bool b => rfl
      | obj fields => rfl
  · intro env cs₁ cs₂ c a e
    induction cs₁ with
    | nil =>
      intro _ herr
      simp only [List.nil_append, evaluateConditions, herr]
    | cons c' cs ih =>
      intro hall herr
      have hc' : evaluateCondition env c' a = Except.ok true := hall c' (by simp)
      simp only [List.cons_append, evaluateConditions, hc']
      exact ih (fun x hx => hall x (List.mem_cons_of_mem _ hx)) herr
  · intro env x rest a res hits h
    rcases h with hdis | hfalse
    · simp only [applyRules, hdis, Bool.not_false, if_true]
    · cases hxe : x.enabled with
      | false => simp only [applyRules, hxe, Bool.not_false, if_true]
      | true =>
        simp only [applyRules, hxe, Bool.not_true, Bool.false_eq_true, if_false, hfalse]
  · intro env r rest a res hits e hen herr
    simp only [applyRules, hen, Bool.not_true, Bool.false_eq_true, if_false, herr]
  · intro env r rest a res hits e hen hcond hact
    simp only [applyRules, hen, Bool.not_true, Bool.false_eq_true, if_false, hcond, hact]
  · intro env acts₁ acts₂ act a r r₁ e
    induction acts₁ generalizing r with
    | nil =>
      intro hok herr
      simp only [applyActions, Except.ok.injEq] at hok
      subst hok
      simp only [List.nil_append, applyActions, herr]
    | cons a' as ih =>
      intro hok herr
      simp only [applyActions] at hok
      cases ha' : applyAction env a' a r with
      | error e' =>
        simp only [ha'] at hok
        exact Except.noConfusion hok
      | ok rmid =>
        simp only [ha'] at hok
        simp only [List.cons_append, applyActions, ha']
        exact ih rmid hok herr
  · intro env cfg st raw e hits' hge hext happ
    unfold parseActivity
    dsimp only
    split
    · rfl
    · simp only [ContentExtractor.extract, hext, Bool.false_eq_true, if_false, happ]

/-- C8 witness: the amended statement at concrete inputs — the
invalid-regex `matches` condition throws, the invalid-regex
`extract_content` action throws, the exception escapes the rule loop,
and `parseActivity` catches it and returns null. -/
theorem C8_witness :
    evaluateCondition envC1
        { field := "id", operator := "matches", value := JsonVal.str "(" } recPlain =
      Except.error "SyntaxError" ∧
    applyAction envC1 (RuleAction.extract_content "id" "(" "x") recPlain
        emptyRuleResult = Except.error "SyntaxError" ∧
    applyRules envC1 (badRegexRule :: []) recPlain emptyRuleResult [] =
      (Except.error "SyntaxError", []) ∧
    (parseActivity envC1 cfgC1 initialParserState recPlain).1 = none :=
  ⟨C8_invalid_regex_escapes_apply.1 envC1
      { field := "id", operator := "matches", value := JsonVal.str "(" } recPlain "a1"
      rfl rfl rfl,
   C8_invalid_regex_escapes_apply.2.2.1 envC1 "id" "(" "x" recPlain emptyRuleResult
      "a1" rfl (by decide) rfl,
   C8_invalid_regex_escapes_apply.2.2.2.2.2.2.1 envC1 badRegexRule [] recPlain
      emptyRuleResult [] "SyntaxError" rfl rfl,
   C8_invalid_regex_escapes_apply.2.2.2.2.2.2.2.2.2 envC1 cfgC1 initialParserState
      recPlain "SyntaxError" [] (by decide) rfl rfl⟩

/-! #### Claim C9 -/

theorem summFold_sums (acts : List ParsedActivity) :
    ∀ acc : SummAcc,
      sumValues acc.categoryBreakdown = acc.activeDuration + acc.idleDuration →
      sumValues acc.activityBreakdown = acc.activeDuration + acc.idleDuration →
      sumValues (acts.foldl summStep acc).categoryBreakdown =
          (acts.foldl summStep acc).activeDuration + (acts.foldl summStep acc).idleDuration ∧
        sumValues (acts.foldl summStep acc).activityBreakdown =
          (acts.foldl summStep acc).activeDuration + (acts.foldl summStep acc).idleDuration := by
  induction acts with
  | nil => intro acc h1 h2; exact ⟨h1, h2⟩
  | cons a rest ih =>
    intro acc h1 h2
    simp only [List.foldl_cons]
    apply ih
    · unfold summStep
      dsimp only
      rw [sumValues_objIncr]
      split
      · rw [h1]; ring
      · rw [h1]; ring
    · unfold summStep
      dsimp only
      rw [sumValues_objIncr]
      split
      · rw [h2]; ring
      · rw [h2]; ring

/-- C9: every summary `getSessionSummary` returns satisfies: the
category-breakdown values sum to active_duration + idle_duration, and
likewise the type-breakdown values — each activity's `duration || 0` is
counted in exactly one category bucket and exactly one type bucket. -/
theorem C9_category_breakdown_sums (sessions : List (String × SessionData)) (sid : String)
    (s : SessionSummary) (h : getSessionSummary sessions sid = some s) :
    sumValues s.category_breakdown = s.active_duration + s.idle_duration ∧
    sumValues s.activity_breakdown = s.active_duration + s.idle_duration := by
  unfold getSessionSummary at h
  rcases hses : objGet sessions sid with _ | session
  · rw [hses] at h
    exact absurd h (by simp)
  · rw [hses] at h
    dsimp only at h
    split at h
    · exact absurd h (by simp)
    · have hz := summFold_sums session.activities emptySummAcc
        (by simp [emptySummAcc, sumValues]) (by simp [emptySummAcc, sumValues])
      obtain rfl := Option.some.inj h
      exact hz

/-- C9 witness. -/
theorem C9_witness :
    sumValues sumC9.category_breakdown = sumC9.active_duration + sumC9.idle_duration ∧
    sumValues sumC9.activity_breakdown = sumC9.active_duration + sumC9.idle_duration :=
  C9_category_breakdown_sums [("s1", sessC3)] "s1" sumC9 rfl

/-! #### Claim C10 -/

/-- C10 counterexample: for a record with application `chrome` and a
youtube.com URL, `categorize` returns `neutral` — the pre-populated
cache entry for `chrome` wins before the URL is ever consulted — even
though `categorizeByUrl` itself would say `entertainment`. -/
theorem C10_counterexample :
    (categorize envUrl emptyCategorization initialCache recChrome "browsing").1 =
      "neutral" ∧
    categorizeByUrl envUrl "https://youtube.com/watch?v=x" = some "entertainment" := by
  constructor
  · rfl
  · rfl

/-- C10 (amended): the URL-implied category takes precedence over the
type- and application-implied categories *only when the lower-cased
application name misses the category cache*; on a hit (including the
pre-populated entries such as `chrome`) the cached category is returned
and the URL is ignored. -/
theorem C10_url_overrides_only_on_cache_miss (env : JsEnv) (config : CategorizationConfig)
    (cache : List (String × String)) (a : RawActivity) (t : String)
    (ctx : ApplicationContext) (url c : String)
    (hmiss : objGet cache (appKey a) = none) (hctx : a.context = some ctx)
    (hurl : ctx.url = some url) (hne : url ≠ "") (hcat : categorizeByUrl env url = some c) :
    (categorize env config cache a t).1 = c := by
  unfold categorize
  dsimp only
  rw [hmiss]
  dsimp only
  rw [hctx]
  dsimp only
  rw [hurl]
  dsimp only
  rw [if_pos hne, hcat]

/-- C10 witness: for an application absent from the cache, the URL
category does override. -/
theorem C10_witness :
    (categorize envUrl emptyCategorization initialCache recFresh "browsing").1 =
      "entertainment" :=
  C10_url_overrides_only_on_cache_miss envUrl emptyCategorization initialCache recFresh
    "browsing" ctxFresh "https://youtube.com/watch?v=x" "entertainment"
    rfl rfl rfl (by decide) rfl
